import Mathlib

/-!
Verification of the chunked resumable batch-job orchestrator implemented in
`mcdockv2.py`.  Python strings are embedded as lists of characters, the
filesystem and the external docking tool are passed in explicitly as
environments, and every function below is a direct transcription of the
corresponding Python function of the source file.
-/

namespace MCDock

/-- Python strings are modelled as lists of characters. -/
abbrev Str := List Char

/-- Does the string start with the given pattern (helper for the Python
substring test). -/
def startsWithStr : Str → Str → Bool
  | _, [] => true
  | [], _ :: _ => false
  | a :: s, b :: t => a == b && startsWithStr s t

/-- Python substring containment `needle in hay` (arguments: haystack first,
needle second). -/
def hasSub : Str → Str → Bool
  | [], needle => needle.isEmpty
  | a :: t, needle => startsWithStr (a :: t) needle || hasSub t needle

/-- Python `s.endswith(suffix)`. -/
def endsWithStr (s suffix : Str) : Bool :=
  startsWithStr s.reverse suffix.reverse

/-- Python `str.strip()`: remove leading and trailing whitespace.  The source
only uses the truthiness of the stripped string. -/
def pyStrip (s : Str) : Str :=
  ((s.dropWhile Char.isWhitespace).reverse.dropWhile Char.isWhitespace).reverse

/-- Python `os.path.basename`: the part of a path after the last slash. -/
def pyBasename (p : Str) : Str := (List.splitOn '/' p).getLastD []

/-- The stem component of Python `os.path.splitext` applied to a basename:
the extension starts at the last dot, except that a run of leading dots is
part of the stem (so `.bashrc` has no extension and `a.b.c` has stem `a.b`). -/
def splitextStem (name : Str) : Str :=
  let lead := name.takeWhile (fun c => c == '.')
  let rest := name.dropWhile (fun c => c == '.')
  let parts := List.splitOn '.' rest
  if 2 ≤ parts.length then lead ++ List.intercalate ['.'] parts.dropLast
  else lead ++ rest

/-- Canonical name of a work item:
`os.path.splitext(os.path.basename(f))[0]` (mcdockv2.py line 89). -/
def canonicalName (p : Str) : Str := splitextStem (pyBasename p)

/-- The fixed output extension `".sdf"`. -/
def sdfExt : Str := ".sdf".toList

/-- A snapshot of the results directory, as seen by one call of
`get_completed_ligands`: whether the directory exists, its listing, and the
size of each listed file. -/
structure ResultDirView where
  dirExists : Bool
  listing : List Str
  size : Str → Nat

/-- `get_completed_ligands` (mcdockv2.py lines 63-73): if the results
directory is missing return the empty set, otherwise record the stem
(`sdf_file[:-4]`) of every listed `.sdf` file of non-zero size. -/
def get_completed_ligands (v : ResultDirView) : List Str :=
  if v.dirExists = false then []
  else
    (v.listing.filter (fun f => endsWithStr f sdfExt && decide (0 < v.size f))).map
      (fun f => f.take (f.length - 4))

/-- `filter_completed_ligands` (mcdockv2.py lines 76-92): keep, in order,
exactly the ligand files whose canonical name is not in the completed set. -/
def filter_completed_ligands (ligand_files : List Str) (completed_ligands : List Str) :
    List Str :=
  match ligand_files with
  | [] => []
  | f :: rest =>
    if completed_ligands.contains (canonicalName f) then
      filter_completed_ligands rest completed_ligands
    else
      f :: filter_completed_ligands rest completed_ligands

/-- Chunking for a positive chunk size: the list comprehension
`[files[i:i+n] for i in range(0, len(files), n)]` of mcdockv2.py line 97,
written as take/drop recursion.  The fuel argument is an upper bound on the
number of iterations; `create_chunksPos` supplies `files.length`, which
suffices whenever `1 ≤ n`. -/
def chunksGo (n : Nat) : Nat → List α → List (List α)
  | 0, _ => []
  | _ + 1, [] => []
  | fuel + 1, x :: xs => (x :: xs).take n :: chunksGo n fuel ((x :: xs).drop n)

/-- `create_chunks` for a positive chunk size. -/
def create_chunksPos (files : List α) (n : Nat) : List (List α) :=
  chunksGo n files.length files

/-- `create_chunks` (mcdockv2.py lines 95-97) with Python `range` semantics
for the step argument: step 0 raises `ValueError`, a negative step makes
`range(0, len(files), step)` empty so the comprehension returns no chunks,
and a positive step produces the usual slices. -/
def create_chunks (files : List α) (chunk_size : Int) : Except String (List (List α)) :=
  if chunk_size = 0 then Except.error "range() arg 3 must not be zero"
  else if chunk_size < 0 then Except.ok []
  else Except.ok (create_chunksPos files chunk_size.toNat)

/-- The filesystem as seen by `quick_file_test`: existence, size, and the
first line of each file (`none` models a file whose open or read raises, the
exception being swallowed by the bare `except` of the source). -/
structure FileSys where
  fexists : Str → Bool
  fsize : Str → Nat
  firstLine : Str → Option Str

/-- The per-file check of `quick_file_test` (mcdockv2.py lines 100-111): the
file exists, has non-zero size, and its first line is non-blank after
stripping; any exception makes the check fail. -/
def fileOk (fs : FileSys) (f : Str) : Bool :=
  fs.fexists f && decide (0 < fs.fsize f) &&
    (match fs.firstLine f with
     | some l => decide (pyStrip l ≠ [])
     | none => false)

/-- `quick_file_test` (mcdockv2.py lines 100-111): keep, in order, the
accessible files. -/
def quick_file_test (fs : FileSys) (ligand_files : List Str) : List Str :=
  ligand_files.filter (fileOk fs)

/-- The diagnostic marker the source scans stderr for. -/
def badInputMarker : Str := "Bad input file".toList

/-- The second marker required on a diagnostic line. -/
def obabelMarker : Str := "obabel_".toList

/-- Per-line blame extraction of `extract_failed_ligands_from_error`
(mcdockv2.py lines 125-139): a line containing `Bad input file`, `.sdf` and
`obabel_` is split on `/`; the first part ending in `.sdf` is matched as a
substring against the submitted ligand paths, and the first matching ligand
(if any) is blamed.  The `break` statements of the source limit the search to
the first qualifying part and the first matching ligand. -/
def lineBlame (ligand_list : List Str) (line : Str) : List Str :=
  if hasSub line badInputMarker && hasSub line sdfExt then
    if hasSub line obabelMarker then
      match List.find? (fun part => endsWithStr part sdfExt) (List.splitOn '/' line) with
      | some part =>
        match List.find? (fun ligand => hasSub ligand part) ligand_list with
        | some ligand => [ligand]
        | none => []
      | none => []
    else []
  else []

/-- `extract_failed_ligands_from_error` (mcdockv2.py lines 114-141): empty
stderr yields no blame; otherwise, if stderr contains the `Bad input file`
marker, each line is scanned independently and the blamed ligands are
collected in line order. -/
def extract_failed_ligands_from_error (stderr : Str) (ligand_list : List Str) : List Str :=
  if stderr = [] then []
  else if hasSub stderr badInputMarker then
    (List.map (lineBlame ligand_list) (List.splitOn '\n' stderr)).flatten
  else []

/-- Outcome of one subprocess invocation of the external tool:
exit 0, `CalledProcessError` with captured stderr, or `TimeoutExpired`. -/
inductive ToolResult where
  | ok : ToolResult
  | err : Str → ToolResult
  | timeout : ToolResult
deriving DecidableEq

/-- Environment of the retry loop: the external tool's behaviour for each
attempt index and submitted ligand list, and `os.path.abspath`. -/
structure RunEnv where
  tool : Nat → List Str → ToolResult
  abspath : Str → Str

/-- Does the chunk index file still exist when the `try` block of one
attempt finishes (mcdockv2.py lines 207-260): it is removed inside `try`
on success only. -/
def fileAfterTry : ToolResult → Bool
  | ToolResult.ok => false
  | ToolResult.err _ => true
  | ToolResult.timeout => true

/-- Does the chunk index file still exist after the `finally` clause of one
attempt (mcdockv2.py lines 261-264): the clause removes the file whenever it
still exists. -/
def fileAfterAttempt (r : ToolResult) : Bool :=
  if fileAfterTry r then false else fileAfterTry r

/-- Record of one attempt: the ligands submitted, the content of the index
artifact written before the subprocess was invoked (one absolute path per
line, mcdockv2.py lines 172-175), the tool's result, and whether the index
artifact remains on the filesystem after the attempt. -/
structure AttemptLog where
  submitted : List Str
  indexContent : List Str
  result : ToolResult
  fileLeftAfter : Bool
deriving DecidableEq

/-- Build the log entry for one attempt. -/
def mkLog (env : RunEnv) (submitted : List Str) (r : ToolResult) : AttemptLog :=
  { submitted := submitted
    indexContent := submitted.map env.abspath
    result := r
    fileLeftAfter := fileAfterAttempt r }

/-- The mutable state of the retry loop of `run_mcdock_chunk_with_retry`:
`successful_ligands`, `failed_ligands`, `remaining_ligands`, plus the trace
of attempts made. -/
structure ChunkState where
  successful : List Str
  failed : List Str
  remaining : List Str
  attempts : List AttemptLog
deriving DecidableEq

/-- `max_attempts` (mcdockv2.py line 164). -/
def max_attempts : Nat := 3

/-- The attempt loop `for attempt in range(max_attempts)` of
`run_mcdock_chunk_with_retry` (mcdockv2.py lines 165-264).  `fuel` is the
number of loop iterations still available (`max_attempts - attempt` at the
top-level call).  Success extends the successful list and breaks; an error
whose stderr identifies specific ligands removes them from the remaining
list, records them as failed and continues (or breaks when nothing remains);
an error identifying nothing breaks, marking the remaining ligands failed
only on the last attempt; a timeout breaks immediately. -/
def runAttempts (env : RunEnv) : Nat → Nat → ChunkState → ChunkState
  | _, 0, st => st
  | attempt, fuel + 1, st =>
    if st.remaining = [] then st
    else
      match env.tool attempt st.remaining with
      | ToolResult.ok =>
        { successful := st.successful ++ st.remaining
          failed := st.failed
          remaining := st.remaining
          attempts := st.attempts ++ [mkLog env st.remaining ToolResult.ok] }
      | ToolResult.err e =>
        let failedIn := extract_failed_ligands_from_error e st.remaining
        if failedIn ≠ [] then
          let newRem := st.remaining.filter (fun l => !failedIn.contains l)
          let st' : ChunkState :=
            { successful := st.successful
              failed := st.failed ++ failedIn
              remaining := newRem
              attempts := st.attempts ++ [mkLog env st.remaining (ToolResult.err e)] }
          if newRem ≠ [] then runAttempts env (attempt + 1) fuel st'
          else st'
        else
          if attempt = max_attempts - 1 then
            { successful := st.successful
              failed := st.failed ++ st.remaining
              remaining := []
              attempts := st.attempts ++ [mkLog env st.remaining (ToolResult.err e)] }
          else
            { successful := st.successful
              failed := st.failed
              remaining := st.remaining
              attempts := st.attempts ++ [mkLog env st.remaining (ToolResult.err e)] }
      | ToolResult.timeout =>
        { successful := st.successful
          failed := st.failed
          remaining := st.remaining
          attempts := st.attempts ++ [mkLog env st.remaining ToolResult.timeout] }

/-- Result of `run_mcdock_chunk_with_retry`: the final loop state, the
returned boolean (`len(successful_ligands) > 0`), and the content of the
`chunk_N_failed_ligands.txt` record (written only when the failed list is
non-empty, mcdockv2.py lines 271-277). -/
structure ChunkReport where
  state : ChunkState
  success : Bool
  failedRecord : List Str
deriving DecidableEq

/-- `run_mcdock_chunk_with_retry` (mcdockv2.py lines 144-286): filter the
chunk through `quick_file_test`, return failure immediately when nothing is
accessible, otherwise run the attempt loop and report. -/
def run_mcdock_chunk_with_retry (fs : FileSys) (env : RunEnv) (chunk_ligands : List Str) :
    ChunkReport :=
  let accessible := quick_file_test fs chunk_ligands
  if accessible = [] then
    { state := { successful := [], failed := [], remaining := [], attempts := [] }
      success := false
      failedRecord := [] }
  else
    let st := runAttempts env 0 max_attempts
      { successful := [], failed := [], remaining := accessible, attempts := [] }
    { state := st
      success := decide (st.successful ≠ [])
      failedRecord := st.failed }

/-- Environment of `main`: configuration checks, the sorted work catalog,
the successive snapshots of the results directory (one per call of
`get_completed_ligands`, indexed by call count — the directory evolves as
the external tool writes results), the filesystem for `quick_file_test`,
the tool behaviour per chunk number, `os.path.abspath`, and the value of the
shutdown flag observed before each chunk. -/
structure MainEnv where
  receptorExists : Bool
  ligandDirExists : Bool
  allLigandFiles : List Str
  oracle : Nat → ResultDirView
  fs : FileSys
  tool : Nat → Nat → List Str → ToolResult
  abspath : Str → Str
  shutdownAt : Nat → Bool

/-- The chunk loop of `main` (mcdockv2.py lines 432-462).  Arguments: the
chunks still to process, the 1-based number of the next chunk, and the index
of the next `get_completed_ligands` call.  Returns the counters
`successful_chunks` and `failed_chunks` and the final call index.  Each
iteration checks the shutdown flag, re-reads the completion oracle, skips a
chunk whose ligands are all completed, and otherwise runs the chunk (a
successful chunk triggers one extra oracle read for the progress report). -/
def processChunks (env : MainEnv) : List (List Str) → Nat → Nat → Nat × Nat × Nat
  | [], _, t => (0, 0, t)
  | c :: rest, num, t =>
    if env.shutdownAt num then (0, 0, t)
    else
      let compl := get_completed_ligands (env.oracle t)
      let rem := filter_completed_ligands c compl
      if rem = [] then
        let r := processChunks env rest (num + 1) (t + 1)
        (r.1 + 1, r.2.1, r.2.2)
      else
        let report := run_mcdock_chunk_with_retry env.fs
          { tool := env.tool num, abspath := env.abspath } rem
        if report.success then
          let r := processChunks env rest (num + 1) (t + 2)
          (r.1 + 1, r.2.1, r.2.2)
        else
          let r := processChunks env rest (num + 1) (t + 1)
          (r.1, r.2.1 + 1, r.2.2)

/-- What `main` reports when the process exits. -/
structure RunSummary where
  exitCode : Nat
  successfulChunks : Nat
  failedChunks : Nat
  finalCompleted : List Str

/-- `main` (mcdockv2.py lines 363-490) in its default (no-flag) mode:
configuration failures (missing receptor, missing ligand directory, empty
catalog) exit with code 1; when a resume detects that no ligand is pending
the process exits 0 immediately; otherwise the pending work is chunked with
`LIGANDS_PER_CHUNK = 250`, the chunk loop runs, a final oracle read feeds
the summary log, and the function falls off the end — the interpreter then
exits with code 0 regardless of how many chunks or ligands failed. -/
def mainRun (env : MainEnv) : RunSummary :=
  if env.receptorExists = false then
    { exitCode := 1, successfulChunks := 0, failedChunks := 0, finalCompleted := [] }
  else if env.ligandDirExists = false then
    { exitCode := 1, successfulChunks := 0, failedChunks := 0, finalCompleted := [] }
  else if env.allLigandFiles = [] then
    { exitCode := 1, successfulChunks := 0, failedChunks := 0, finalCompleted := [] }
  else
    let completed := get_completed_ligands (env.oracle 0)
    let ligand_files :=
      if completed ≠ [] then filter_completed_ligands env.allLigandFiles completed
      else env.allLigandFiles
    if completed ≠ [] ∧ ligand_files = [] then
      { exitCode := 0, successfulChunks := 0, failedChunks := 0, finalCompleted := completed }
    else
      let chunks := create_chunksPos ligand_files 250
      let r := processChunks env chunks 1 1
      { exitCode := 0
        successfulChunks := r.1
        failedChunks := r.2.1
        finalCompleted := get_completed_ligands (env.oracle r.2.2) }

/-! Concrete environments used to evaluate the model on specific inputs. -/

/-- A filesystem on which every file passes `quick_file_test`. -/
def allOkFs : FileSys :=
  { fexists := fun _ => true, fsize := fun _ => 1, firstLine := fun _ => some ['x'] }

/-- A stderr text with no recognizable per-item failure marker. -/
def noMarkerStderr : Str := "unidock crashed".toList

/-- A tool that always fails with non-diagnosable stderr. -/
def envUndiag : RunEnv := { tool := fun _ _ => ToolResult.err noMarkerStderr, abspath := id }

/-- A tool that always exceeds the wall-clock timeout. -/
def envTimeout : RunEnv := { tool := fun _ _ => ToolResult.timeout, abspath := id }

/-- A sample ligand path. -/
def ligA : Str := "/L/a.sdf".toList

/-- A stderr line carrying the `Bad input file` marker for `lig_1.sdf`. -/
def cexStderr : Str := "Bad input file: /tmp/obabel_1/lig_1.sdf".toList

/-- The ligand actually referenced by `cexStderr`. -/
def cexLigX : Str := "/d/lig_1.sdf".toList

/-- A different ligand whose path happens to contain `lig_1.sdf` as a substring. -/
def cexLigY : Str := "/d/alig_1.sdf".toList

/-- A snapshot where the results directory does not exist. -/
def emptyDir : ResultDirView := { dirExists := false, listing := [], size := fun _ => 0 }

/-- A full-run environment: valid configuration, one ligand, a tool that
always times out, and a results directory that never materializes. -/
def cexMainEnv : MainEnv :=
  { receptorExists := true
    ligandDirExists := true
    allLigandFiles := [ligA]
    oracle := fun _ => emptyDir
    fs := allOkFs
    tool := fun _ _ _ => ToolResult.timeout
    abspath := id
    shutdownAt := fun _ => false }

/-- A ligand whose input file is missing. -/
def badLig : Str := "/L/bad.sdf".toList

/-- A filesystem on which exactly `badLig` is inaccessible. -/
def badFs : FileSys :=
  { fexists := fun f => decide (f ≠ badLig), fsize := fun _ => 1
    firstLine := fun _ => some ['x'] }

/-- The attempt log produced by one timed-out attempt on `ligA` under the
identity `abspath`. -/
def timeoutLog : AttemptLog :=
  { submitted := [ligA], indexContent := [ligA], result := ToolResult.timeout
    fileLeftAfter := false }

/-- Fallback attempt log used as the `getD` default. -/
def fallbackLog : AttemptLog :=
  { submitted := [], indexContent := [], result := ToolResult.ok, fileLeftAfter := true }

/-! Helper lemmas. -/

/-- Any ligand blamed by a single diagnostic line was submitted. -/
theorem lineBlame_mem {L : List Str} {line x : Str} (h : x ∈ lineBlame L line) : x ∈ L := by
  unfold lineBlame at h
  split at h
  · split at h
    · split at h
      · split at h
        · rename_i ligand hfind
          rw [List.mem_singleton] at h
          exact h ▸ List.mem_of_find?_eq_some hfind
        · exact absurd h (List.not_mem_nil x)
      · exact absurd h (List.not_mem_nil x)
    · exact absurd h (List.not_mem_nil x)
  · exact absurd h (List.not_mem_nil x)

/-- Any ligand the diagnoser returns was in the submitted list. -/
theorem extract_subset {s : Str} {L : List Str} :
    ∀ x ∈ extract_failed_ligands_from_error s L, x ∈ L := by
  intro x hx
  unfold extract_failed_ligands_from_error at hx
  split at hx
  · exact absurd hx (List.not_mem_nil x)
  · split at hx
    · rw [List.mem_flatten] at hx
      obtain ⟨l, hl, hxl⟩ := hx
      rw [List.mem_map] at hl
      obtain ⟨line, _, rfl⟩ := hl
      exact lineBlame_mem hxl
    · exact absurd hx (List.not_mem_nil x)

/-- `find?` returns the unique element satisfying the predicate. -/
theorem findUniqueEq {α : Type} (p : α → Bool) :
    ∀ (L : List α) (X : α), X ∈ L → p X = true → (∀ Y ∈ L, p Y = true → Y = X) →
      L.find? p = some X
  | [], X, h, _, _ => absurd h (List.not_mem_nil X)
  | a :: t, X, hmem, hpX, huniq => by
    by_cases ha : p a = true
    · have haX : a = X := huniq a (List.mem_cons_self a t) ha
      rw [List.find?_cons_of_pos _ ha, haX]
    · have hX : X ∈ t := by
        rcases List.mem_cons.mp hmem with rfl | h
        · exact absurd hpX ha
        · exact h
      rw [List.find?_cons_of_neg _ (by simpa using ha)]
      exact findUniqueEq p t X hX hpX fun Y hY hpY => huniq Y (List.mem_cons_of_mem _ hY) hpY

/-- Chunking the empty list gives no chunks, whatever the fuel. -/
theorem chunksGo_nil {α : Type} (n : Nat) : ∀ fuel : Nat, chunksGo n fuel ([] : List α) = []
  | 0 => rfl
  | _ + 1 => rfl

/-- Concatenating the chunks recovers the input list. -/
theorem chunksGo_flatten {α : Type} {n : Nat} (hn : 1 ≤ n) :
    ∀ (fuel : Nat) (xs : List α), xs.length ≤ fuel → (chunksGo n fuel xs).flatten = xs
  | 0, xs, h => by
    have : xs = [] := List.length_eq_zero.mp (Nat.le_zero.mp h)
    simp [this, chunksGo]
  | _ + 1, [], _ => rfl
  | fuel + 1, x :: xs, h => by
    have hlen : ((x :: xs).drop n).length ≤ fuel := by
      rw [List.length_drop]
      simp only [List.length_cons] at h ⊢
      omega
    simp only [chunksGo, List.flatten_cons, chunksGo_flatten hn fuel _ hlen]
    exact List.take_append_drop n (x :: xs)

/-- Every chunk has at most `n` elements. -/
theorem chunksGo_le {α : Type} (n : Nat) :
    ∀ (fuel : Nat) (xs : List α), ∀ c ∈ chunksGo n fuel xs, c.length ≤ n
  | 0, _, c, hc => absurd hc (List.not_mem_nil c)
  | _ + 1, [], c, hc => absurd hc (List.not_mem_nil c)
  | fuel + 1, x :: xs, c, hc => by
    rw [chunksGo, List.mem_cons] at hc
    rcases hc with rfl | hc
    · simp [List.length_take]
    · exact chunksGo_le n fuel _ c hc

/-- Every chunk except possibly the last has exactly `n` elements. -/
theorem chunksGo_full {α : Type} {n : Nat} (hn : 1 ≤ n) :
    ∀ (fuel : Nat) (xs : List α), xs.length ≤ fuel →
      ∀ i, i + 1 < (chunksGo n fuel xs).length →
        ((chunksGo n fuel xs).getD i []).length = n
  | 0, xs, h, i, hi => by
    have : xs = [] := List.length_eq_zero.mp (Nat.le_zero.mp h)
    subst this
    simp [chunksGo] at hi
  | _ + 1, [], _, i, hi => by simp [chunksGo] at hi
  | fuel + 1, x :: xs, h, i, hi => by
    have hlen : ((x :: xs).drop n).length ≤ fuel := by
      rw [List.length_drop]
      simp only [List.length_cons] at h ⊢
      omega
    match i with
    | 0 =>
      rw [chunksGo] at hi ⊢
      simp only [List.length_cons] at hi
      have hrest : chunksGo n fuel ((x :: xs).drop n) ≠ [] := by
        intro hempty
        rw [hempty] at hi
        simp only [List.length_nil] at hi
        omega
      have hdrop : (x :: xs).drop n ≠ [] := by
        intro hd
        exact hrest (hd ▸ chunksGo_nil n fuel)
      have hlth : n ≤ (x :: xs).length := by
        by_contra hlt
        push_neg at hlt
        exact hdrop (List.drop_eq_nil_of_le (Nat.le_of_lt hlt))
      simp only [List.getD_cons_zero, List.length_take]
      simp only [List.length_cons] at hlth
      simp only [List.length_cons]
      omega
    | i + 1 =>
      rw [chunksGo] at hi ⊢
      simp only [List.length_cons, List.getD_cons_succ] at hi ⊢
      exact chunksGo_full hn fuel _ hlen i (by omega)

/-! Claim theorems. -/

/-- C2: recomputing pending work returns exactly the catalog entries whose
canonical name is absent from the completion set, in the original order: the
result is the order-preserving filter of the catalog, a sublist of it, and
membership is exactly absence of the canonical name from the completion
set. -/
theorem C2_pending_exact (W C : List Str) :
    filter_completed_ligands W C = W.filter (fun f => !C.contains (canonicalName f))
    ∧ List.Sublist (filter_completed_ligands W C) W
    ∧ ∀ f, f ∈ filter_completed_ligands W C ↔
        f ∈ W ∧ C.contains (canonicalName f) = false := by
  have h : filter_completed_ligands W C
      = W.filter (fun f => !C.contains (canonicalName f)) := by
    induction W with
    | nil => rfl
    | cons a t ih =>
      by_cases hc : C.contains (canonicalName a) = true
      · simp [filter_completed_ligands, List.filter_cons, hc, ih]
      · rw [Bool.not_eq_true] at hc
        simp [filter_completed_ligands, List.filter_cons, hc, ih]
  refine ⟨h, ?_, ?_⟩
  · rw [h]
    exact List.filter_sublist W
  · intro f
    rw [h, List.mem_filter]
    simp

/-- C3: for every positive chunk size the chunker succeeds, the chunks
concatenate back to the input list (preserving order and total length),
every chunk has at most `n` items, and every chunk but the last has exactly
`n` items. -/
theorem C3_chunk_partition {α : Type} (xs : List α) (n : Int) (h : 1 ≤ n) :
    create_chunks xs n = Except.ok (create_chunksPos xs n.toNat)
    ∧ (create_chunksPos xs n.toNat).flatten = xs
    ∧ (∀ c ∈ create_chunksPos xs n.toNat, c.length ≤ n.toNat)
    ∧ ∀ i, i + 1 < (create_chunksPos xs n.toNat).length →
        ((create_chunksPos xs n.toNat).getD i []).length = n.toNat := by
  have hn0 : ¬n = 0 := by omega
  have hneg : ¬n < 0 := by omega
  have hn1 : 1 ≤ n.toNat := by omega
  refine ⟨by simp [create_chunks, hn0, hneg], ?_, ?_, ?_⟩
  · exact chunksGo_flatten hn1 _ _ (Nat.le_refl _)
  · exact chunksGo_le n.toNat _ xs
  · exact chunksGo_full hn1 _ _ (Nat.le_refl _)

/-- C3 witness: chunking `[1,2,3]` with size `2`. -/
theorem C3_chunk_partition_witness :
    (create_chunksPos [1, 2, 3] 2).flatten = [1, 2, 3] :=
  (C3_chunk_partition [1, 2, 3] 2 (by decide)).2.1

/-- C4: when stderr carries no `Bad input file` marker the diagnoser returns
the empty list, and every ligand it ever returns comes from the submitted
list. -/
theorem C4_no_marker_no_guess :
    (∀ (s : Str) (L : List Str), hasSub s badInputMarker = false →
      extract_failed_ligands_from_error s L = [])
    ∧ ∀ (s : Str) (L : List Str) (x : Str),
        x ∈ extract_failed_ligands_from_error s L → x ∈ L := by
  constructor
  · intro s L hs
    unfold extract_failed_ligands_from_error
    split
    · rfl
    · rw [hs]
      rfl
  · intro s L x hx
    exact extract_subset x hx

/-- C4 witness: non-diagnosable stderr yields no blame, and the blamed
ligand of a diagnosable stderr was submitted. -/
theorem C4_no_marker_no_guess_witness :
    extract_failed_ligands_from_error noMarkerStderr ["/a/x.sdf".toList] = []
    ∧ cexLigX ∈ [cexLigX] :=
  ⟨C4_no_marker_no_guess.1 noMarkerStderr ["/a/x.sdf".toList] rfl,
   C4_no_marker_no_guess.2 cexStderr [cexLigX] cexLigX (by decide)⟩

/-- C8 counterexample: a negative chunk size does not fail — the chunker
returns a (empty) result, contradicting the claim that every non-positive
size fails with an invalid-configuration error. -/
theorem C8_counterexample :
    create_chunks [ligA] (-1 : Int) = Except.ok [] ∧ (-1 : Int) ≤ 0 :=
  ⟨rfl, by decide⟩

/-- C8 amended: a chunk size of exactly zero fails with the `range` step
error, but a negative chunk size silently returns an empty chunk list
(dropping every item) instead of failing. -/
theorem C8_zero_fails_negative_succeeds {α : Type} (xs : List α) :
    create_chunks xs 0 = Except.error "range() arg 3 must not be zero"
    ∧ ∀ n : Int, n < 0 → create_chunks xs n = Except.ok [] := by
  constructor
  · rfl
  · intro n hn
    have hn0 : ¬n = 0 := by omega
    simp [create_chunks, hn0, hn]

/-- C8 witness: the amended behaviour at size `0` and size `-2`. -/
theorem C8_zero_fails_negative_succeeds_witness :
    create_chunks [ligA] (-2 : Int) = Except.ok [] :=
  (C8_zero_fails_negative_succeeds [ligA]).2 (-2) (by decide)

/-- C9 counterexample: the stderr references `lig_1.sdf` — the basename of
`cexLigY` does not occur in it, only that of `cexLigX` does — yet the
diagnoser blames `cexLigY`, the first submitted path containing the extracted
filename as a substring, instead of the referenced item. -/
theorem C9_counterexample :
    extract_failed_ligands_from_error cexStderr [cexLigY, cexLigX] = [cexLigY]
    ∧ cexLigY ≠ cexLigX
    ∧ hasSub cexStderr (pyBasename cexLigX) = true
    ∧ hasSub cexStderr (pyBasename cexLigY) = false :=
  ⟨rfl, by decide, rfl, rfl⟩

/-- C9 amended: when the filename extracted from a single-line marker
stderr occurs as a substring of exactly one submitted item `X`, the
diagnoser returns exactly `[X]`; with several substring matches the first in
submission order is blamed, which need not be the referenced item. -/
theorem C9_unique_match_blamed (s p X : Str) (L : List Str)
    (hne : s ≠ [])
    (hmark : hasSub s badInputMarker = true)
    (hsdf : hasSub s sdfExt = true)
    (hob : hasSub s obabelMarker = true)
    (hline : List.splitOn '\n' s = [s])
    (hpart : List.find? (fun part => endsWithStr part sdfExt) (List.splitOn '/' s) = some p)
    (hXmem : X ∈ L)
    (hXp : hasSub X p = true)
    (huniq : ∀ Y ∈ L, hasSub Y p = true → Y = X) :
    extract_failed_ligands_from_error s L = [X] := by
  have hfind : List.find? (fun ligand => hasSub ligand p) L = some X :=
    findUniqueEq _ L X hXmem hXp huniq
  simp only [extract_failed_ligands_from_error, if_neg hne, hmark, if_true, hline]
  simp [lineBlame, hmark, hsdf, hob, hpart, hfind]

/-- C9 witness: a marker line naming `lig_1.sdf` with a single submitted
item containing it. -/
theorem C9_unique_match_blamed_witness :
    extract_failed_ligands_from_error cexStderr [cexLigX] = [cexLigX] :=
  C9_unique_match_blamed cexStderr "lig_1.sdf".toList cexLigX [cexLigX]
    (by decide) (by decide) (by decide) (by decide) (by decide) (by decide)
    (by decide) (by decide) (by decide)

/-- C5 counterexample: the first attempt fails, the diagnoser identifies
nothing, two more attempts remain (`max_attempts = 3`) — yet only one
attempt is ever made: the item set is not retried. -/
theorem C5_counterexample :
    (run_mcdock_chunk_with_retry allOkFs envUndiag [ligA]).state.attempts.length = 1
    ∧ envUndiag.tool 0 [ligA] = ToolResult.err noMarkerStderr
    ∧ extract_failed_ligands_from_error noMarkerStderr [ligA] = []
    ∧ max_attempts = 3 :=
  ⟨rfl, rfl, rfl, rfl⟩

/-- C5 amended: when an attempt fails and the diagnoser identifies no
specific item, the controller does not retry, even when attempts remain
below the bound: it exits the loop at once, leaving the successful, failed
and remaining lists unchanged and logging only the failed attempt. -/
theorem C5_undiagnosed_failure_stops_loop (env : RunEnv) (attempt fuel : Nat)
    (st : ChunkState) (e : Str)
    (hfuel : fuel ≠ 0)
    (hrem : st.remaining ≠ [])
    (htool : env.tool attempt st.remaining = ToolResult.err e)
    (hdiag : extract_failed_ligands_from_error e st.remaining = [])
    (hlast : attempt ≠ max_attempts - 1) :
    runAttempts env attempt fuel st =
      { successful := st.successful
        failed := st.failed
        remaining := st.remaining
        attempts := st.attempts ++ [mkLog env st.remaining (ToolResult.err e)] } := by
  obtain ⟨k, rfl⟩ : ∃ k, fuel = k + 1 := ⟨fuel - 1, by omega⟩
  simp only [runAttempts, if_neg hrem, htool, hdiag, ne_eq, not_true_eq_false, if_false,
    if_neg hlast]

/-- C5 witness: one undiagnosable failure on the first of three attempts. -/
theorem C5_undiagnosed_failure_stops_loop_witness :
    runAttempts envUndiag 0 3
        { successful := [], failed := [], remaining := [ligA], attempts := [] }
      = { successful := [], failed := [], remaining := [ligA],
          attempts := [mkLog envUndiag [ligA] (ToolResult.err noMarkerStderr)] } :=
  C5_undiagnosed_failure_stops_loop envUndiag 0 3
    { successful := [], failed := [], remaining := [ligA], attempts := [] }
    noMarkerStderr (by decide) (by decide) rfl rfl (by decide)

/-- C6 counterexample: a timed-out first attempt is never retried, and the
in-flight item ends in neither the failed list nor the failure record — it
is silently dropped from the chunk's accounting rather than marked failed. -/
theorem C6_counterexample :
    (run_mcdock_chunk_with_retry allOkFs envTimeout [ligA]).state.attempts = [timeoutLog]
    ∧ (run_mcdock_chunk_with_retry allOkFs envTimeout [ligA]).state.failed = []
    ∧ (run_mcdock_chunk_with_retry allOkFs envTimeout [ligA]).failedRecord = []
    ∧ (run_mcdock_chunk_with_retry allOkFs envTimeout [ligA]).state.remaining = [ligA] :=
  ⟨rfl, rfl, rfl, rfl⟩

/-- C6 amended: a timed-out attempt is recorded as `timeout` and never
treated as success (the successful list is unchanged), but it is not
retried: the loop exits immediately and the still-in-flight items are
neither marked failed nor recorded — they stay pending for a later run. -/
theorem C6_timeout_stops_loop (env : RunEnv) (attempt fuel : Nat) (st : ChunkState)
    (hfuel : fuel ≠ 0)
    (hrem : st.remaining ≠ [])
    (htool : env.tool attempt st.remaining = ToolResult.timeout) :
    runAttempts env attempt fuel st =
      { successful := st.successful
        failed := st.failed
        remaining := st.remaining
        attempts := st.attempts ++ [mkLog env st.remaining ToolResult.timeout] } := by
  obtain ⟨k, rfl⟩ : ∃ k, fuel = k + 1 := ⟨fuel - 1, by omega⟩
  simp only [runAttempts, if_neg hrem, htool]

/-- C6 witness: one timeout on the first of three attempts. -/
theorem C6_timeout_stops_loop_witness :
    runAttempts envTimeout 0 3
        { successful := [], failed := [], remaining := [ligA], attempts := [] }
      = { successful := [], failed := [], remaining := [ligA],
          attempts := [mkLog envTimeout [ligA] ToolResult.timeout] } :=
  C6_timeout_stops_loop envTimeout 0 3
    { successful := [], failed := [], remaining := [ligA], attempts := [] }
    (by decide) (by decide) rfl

/-- The cleanup clause removes the index artifact after every attempt. -/
theorem fileAfterAttempt_false (r : ToolResult) : fileAfterAttempt r = false := by
  cases r <;> rfl

/-- Every attempt log of the retry loop records the index artifact content
as the absolute submitted paths and the artifact as deleted afterwards. -/
theorem runAttempts_log_inv (env : RunEnv) :
    ∀ (fuel attempt : Nat) (st : ChunkState),
      (∀ a ∈ st.attempts,
        a.indexContent = a.submitted.map env.abspath ∧ a.fileLeftAfter = false) →
      ∀ a ∈ (runAttempts env attempt fuel st).attempts,
        a.indexContent = a.submitted.map env.abspath ∧ a.fileLeftAfter = false
  | 0, _, _, hinv => hinv
  | fuel + 1, attempt, st, hinv => by
    have happ : ∀ r : ToolResult, ∀ a ∈ st.attempts ++ [mkLog env st.remaining r],
        a.indexContent = a.submitted.map env.abspath ∧ a.fileLeftAfter = false := by
      intro r a ha
      rcases List.mem_append.mp ha with h | h
      · exact hinv a h
      · rw [List.mem_singleton] at h
        subst h
        exact ⟨rfl, fileAfterAttempt_false r⟩
    by_cases hrem : st.remaining = []
    · rw [runAttempts, if_pos hrem]
      exact hinv
    · rw [runAttempts, if_neg hrem]
      cases htool : env.tool attempt st.remaining with
      | ok => exact happ ToolResult.ok
      | err e =>
        simp only []
        by_cases hfail : extract_failed_ligands_from_error e st.remaining ≠ []
        · rw [if_pos hfail]
          by_cases hnew :
              st.remaining.filter
                (fun l => !(extract_failed_ligands_from_error e st.remaining).contains l) ≠ []
          · rw [if_pos hnew]
            exact runAttempts_log_inv env fuel (attempt + 1) _ (happ (ToolResult.err e))
          · rw [if_neg hnew]
            exact happ (ToolResult.err e)
        · rw [if_neg hfail]
          by_cases hl : attempt = max_attempts - 1
          · rw [if_pos hl]
            exact happ (ToolResult.err e)
          · rw [if_neg hl]
            exact happ (ToolResult.err e)
      | timeout => exact happ ToolResult.timeout

/-- C7 counterexample: on a failed attempt the index artifact is not left in
place — the cleanup clause deletes it, contradicting the claim that it is
left on the filesystem when the attempt fails. -/
theorem C7_counterexample :
    ((run_mcdock_chunk_with_retry allOkFs envUndiag [ligA]).state.attempts.getD 0
        fallbackLog).result = ToolResult.err noMarkerStderr
    ∧ ((run_mcdock_chunk_with_retry allOkFs envUndiag [ligA]).state.attempts.getD 0
        fallbackLog).fileLeftAfter = false :=
  ⟨rfl, rfl⟩

/-- C7 amended: every attempt writes the index artifact (one absolute input
path per line) before invoking the subprocess, and the artifact is deleted
after the attempt whether it succeeds or fails — it is never left in
place. -/
theorem C7_index_artifact_always_deleted (fs : FileSys) (env : RunEnv)
    (chunk_ligands : List Str) :
    ∀ a ∈ (run_mcdock_chunk_with_retry fs env chunk_ligands).state.attempts,
      a.indexContent = a.submitted.map env.abspath ∧ a.fileLeftAfter = false := by
  simp only [run_mcdock_chunk_with_retry]
  split
  · intro a ha
    exact absurd ha (List.not_mem_nil a)
  · exact runAttempts_log_inv env max_attempts 0 _ (by intro a ha; exact absurd ha (List.not_mem_nil a))

/-- C7 witness: the timeout attempt's log. -/
theorem C7_index_artifact_always_deleted_witness :
    timeoutLog.indexContent = [ligA].map envTimeout.abspath
    ∧ timeoutLog.fileLeftAfter = false :=
  C7_index_artifact_always_deleted allOkFs envTimeout [ligA] timeoutLog (by decide)

/-- Items absent from every loop list stay absent through the retry loop. -/
theorem runAttempts_untouched (env : RunEnv) (f : Str) :
    ∀ (fuel attempt : Nat) (st : ChunkState),
      f ∉ st.successful → f ∉ st.failed → f ∉ st.remaining →
      (∀ a ∈ st.attempts, f ∉ a.submitted) →
      f ∉ (runAttempts env attempt fuel st).successful
      ∧ f ∉ (runAttempts env attempt fuel st).failed
      ∧ f ∉ (runAttempts env attempt fuel st).remaining
      ∧ ∀ a ∈ (runAttempts env attempt fuel st).attempts, f ∉ a.submitted
  | 0, _, _, h1, h2, h3, h4 => ⟨h1, h2, h3, h4⟩
  | fuel + 1, attempt, st, h1, h2, h3, h4 => by
    have happ : ∀ r : ToolResult, ∀ a ∈ st.attempts ++ [mkLog env st.remaining r],
        f ∉ a.submitted := by
      intro r a ha
      rcases List.mem_append.mp ha with h | h
      · exact h4 a h
      · rw [List.mem_singleton] at h
        subst h
        exact h3
    by_cases hrem : st.remaining = []
    · rw [runAttempts, if_pos hrem]
      exact ⟨h1, h2, h3, h4⟩
    · rw [runAttempts, if_neg hrem]
      cases htool : env.tool attempt st.remaining with
      | ok =>
        refine ⟨?_, h2, h3, happ ToolResult.ok⟩
        intro hf
        rcases List.mem_append.mp hf with h | h
        · exact h1 h
        · exact h3 h
      | err e =>
        have hfailed : f ∉ st.failed ++ extract_failed_ligands_from_error e st.remaining := by
          intro hf
          rcases List.mem_append.mp hf with h | h
          · exact h2 h
          · exact h3 (extract_subset f h)
        have hnewrem : f ∉ st.remaining.filter
            (fun l => !(extract_failed_ligands_from_error e st.remaining).contains l) := by
          intro hf
          exact h3 (List.mem_of_mem_filter hf)
        simp only []
        by_cases hfail : extract_failed_ligands_from_error e st.remaining ≠ []
        · rw [if_pos hfail]
          by_cases hnew :
              st.remaining.filter
                (fun l => !(extract_failed_ligands_from_error e st.remaining).contains l) ≠ []
          · rw [if_pos hnew]
            exact runAttempts_untouched env f fuel (attempt + 1) _
              h1 hfailed hnewrem (happ (ToolResult.err e))
          · rw [if_neg hnew]
            exact ⟨h1, hfailed, hnewrem, happ (ToolResult.err e)⟩
        · rw [if_neg hfail]
          have hfailed2 : f ∉ st.failed ++ st.remaining := by
            intro hf
            rcases List.mem_append.mp hf with h | h
            · exact h2 h
            · exact h3 h
          by_cases hl : attempt = max_attempts - 1
          · rw [if_pos hl]
            exact ⟨h1, hfailed2, List.not_mem_nil f, happ (ToolResult.err e)⟩
          · rw [if_neg hl]
            exact ⟨h1, h2, h3, happ (ToolResult.err e)⟩
      | timeout => exact ⟨h1, h2, h3, happ ToolResult.timeout⟩

/-- C10: an item of the chunk whose file fails the pre-flight accessibility
check (missing, empty, or blank/unreadable first line) is silently removed:
it is submitted in no attempt, ends in neither the successful nor the
failed list, and no failure record mentions it. -/
theorem C10_inaccessible_dropped (fs : FileSys) (env : RunEnv) (chunk_ligands : List Str)
    (f : Str) (_hmem : f ∈ chunk_ligands) (hbad : fileOk fs f = false) :
    f ∉ (run_mcdock_chunk_with_retry fs env chunk_ligands).state.successful
    ∧ f ∉ (run_mcdock_chunk_with_retry fs env chunk_ligands).state.failed
    ∧ f ∉ (run_mcdock_chunk_with_retry fs env chunk_ligands).failedRecord
    ∧ ∀ a ∈ (run_mcdock_chunk_with_retry fs env chunk_ligands).state.attempts,
        f ∉ a.submitted := by
  have hacc : f ∉ quick_file_test fs chunk_ligands := by
    intro h
    rw [quick_file_test, List.mem_filter, hbad] at h
    exact absurd h.2 (by simp)
  simp only [run_mcdock_chunk_with_retry]
  split
  · refine ⟨List.not_mem_nil f, List.not_mem_nil f, List.not_mem_nil f, ?_⟩
    intro a ha
    exact absurd ha (List.not_mem_nil a)
  · have h := runAttempts_untouched env f max_attempts 0
      { successful := [], failed := [], remaining := quick_file_test fs chunk_ligands,
        attempts := [] }
      (List.not_mem_nil f) (List.not_mem_nil f) hacc
      (by intro a ha; exact absurd ha (List.not_mem_nil a))
    exact ⟨h.1, h.2.1, h.2.1, h.2.2.2⟩

/-- C10 witness: a chunk with one missing file and one healthy file. -/
theorem C10_inaccessible_dropped_witness :
    badLig ∉ (run_mcdock_chunk_with_retry badFs envTimeout [badLig, ligA]).state.successful :=
  (C10_inaccessible_dropped badFs envTimeout [badLig, ligA] badLig (by decide) (by decide)).1

/-- C1 counterexample: a run with a valid configuration in which the single
discovered ligand never completes (the tool always times out, the chunk is
counted failed, the completion set stays empty) still exits with code 0. -/
theorem C1_counterexample :
    (mainRun cexMainEnv).exitCode = 0
    ∧ (mainRun cexMainEnv).finalCompleted = []
    ∧ cexMainEnv.allLigandFiles = [ligA]
    ∧ (mainRun cexMainEnv).failedChunks = 1 :=
  ⟨rfl, rfl, rfl, rfl⟩

/-- C1 amended: the exit code reflects only configuration validity, not item
outcomes: a missing receptor, missing ligand directory, or empty catalog
exits 1, and every run that passes those checks exits 0 — even when items
failed or remain incomplete (the run relies on re-running to resume). -/
theorem C1_exit_code_ignores_outcomes (env : MainEnv) :
    ((env.receptorExists = false ∨ env.ligandDirExists = false ∨ env.allLigandFiles = []) →
      (mainRun env).exitCode = 1)
    ∧ (env.receptorExists = true → env.ligandDirExists = true → env.allLigandFiles ≠ [] →
      (mainRun env).exitCode = 0) := by
  constructor
  · intro h
    simp only [mainRun]
    by_cases h1 : env.receptorExists = false
    · rw [if_pos h1]
    · rw [if_neg h1]
      by_cases h2 : env.ligandDirExists = false
      · rw [if_pos h2]
      · rw [if_neg h2]
        have h3 : env.allLigandFiles = [] := by
          rcases h with h | h | h
          · exact absurd h h1
          · exact absurd h h2
          · exact h
        rw [if_pos h3]
  · intro h1 h2 h3
    simp only [mainRun]
    rw [if_neg (by simp [h1]), if_neg (by simp [h2]), if_neg h3]
    split
    · split
      · rfl
      · rfl
    · split
      · rfl
      · rfl

/-- C1 witness: the concrete all-timeout environment passes configuration
checks and exits 0. -/
theorem C1_exit_code_ignores_outcomes_witness :
    (mainRun cexMainEnv).exitCode = 0 :=
  (C1_exit_code_ignores_outcomes cexMainEnv).2 rfl rfl (by decide)

end MCDock
